import Mathlib

/-!
# ShaderBase.h

A shallow embedding of `Assets/ScriptableRenderLoop/common/ShaderBase.h`.

The header has two layers, and so has this development:

* the preprocessor layer: an include guard, a block of `#define`s that is only
  active under `SHADER_API_PSSL`, and six unconditional `#define`s.  It is
  modelled by a small interpreter for the directives the header uses
  (`#ifdef`, `#ifndef`, `#if`, `#endif`, `#define`) over a macro environment,
  and the header itself is the list of lines `ShaderBase_h`; macro replacement
  of text, with argument replacement and rescanning, is `expandText`;
* the two HLSL functions `FetchDepth` and `FetchDepthMSAA`, whose bodies
  contain an `#if` on `SHADER_API_GLES3` / `SHADER_API_GLCORE`; they are
  modelled as functions of the macro environment they are compiled under, the
  texture and the coordinates.  HLSL `float` is modelled as IEEE-754 binary32
  with round-to-nearest-even.
-/

namespace ShaderBase

/-! ## Preprocessor: macro environments -/

/-- A preprocessing token, by its spelling. -/
abbrev Token := String

/-- What a `#define` binds a name to: an object-like macro with its replacement
list, or a function-like macro with its parameters and replacement list. -/
inductive MacroDef where
  | object (replacement : List Token)
  | function (params : List Token) (replacement : List Token)
deriving DecidableEq, Repr

/-- The macro environment the preprocessor carries: for every identifier, its
current definition if it has one. -/
abbrev MacroEnv := Token → Option MacroDef

/-- The environment with no macro defined. -/
def MacroEnv.empty : MacroEnv := fun _ => none

/-- Effect of `#define name ...`: `name` is bound to the new definition, every
other identifier keeps its binding. -/
def MacroEnv.define (env : MacroEnv) (name : Token) (d : MacroDef) : MacroEnv :=
  fun t => if t = name then some d else env t

/-- The preprocessor operator `defined(name)`, which is also what `#ifdef`
tests. -/
def defined (env : MacroEnv) (name : Token) : Bool := (env name).isSome

/-- Controlling expressions of `#if`, as far as the header uses them:
`defined(X)`, `!e` and `e1 && e2`. -/
inductive Cond where
  | defined (name : Token)
  | not (c : Cond)
  | and (a b : Cond)
deriving DecidableEq, Repr

/-- Value of a controlling expression in a macro environment. -/
def Cond.eval (env : MacroEnv) : Cond → Bool
  | .defined name => ShaderBase.defined env name
  | .not c => !(c.eval env)
  | .and a b => a.eval env && b.eval env

/-! ## Preprocessor: lines and their processing -/

/-- One logical line of a source file: a directive (`#ifdef`, `#ifndef`, `#if`,
`#endif`, `#define`, in this order) or a line of text. -/
inductive Line where
  | ifDefined (name : Token)
  | ifNotDefined (name : Token)
  | ifCond (c : Cond)
  | endif
  | define (name : Token) (d : MacroDef)
  | text (tokens : List Token)
deriving DecidableEq, Repr

/-- State of the preprocessor between two lines: the macro environment, the
conditional groups that are open (innermost first, `true` when the group's
condition held), and the tokens passed on so far. -/
structure PPState where
  env : MacroEnv
  groups : List Bool
  out : List Token

/-- A line is processed only when every open conditional group is taken. -/
def PPState.active (s : PPState) : Bool := s.groups.all id

/-- Processing of one line.  Conditionals open a group (in a skipped group the
condition is not looked at), `#endif` closes the innermost group and is an
error without one, `#define` and text lines take effect only in an active
group.  Text is passed on as it stands: macro replacement of text is a
separate step (`expandText`). -/
def step (s : PPState) : Line → Option PPState
  | .ifDefined name => some { s with groups := (s.active && defined s.env name) :: s.groups }
  | .ifNotDefined name => some { s with groups := (s.active && !defined s.env name) :: s.groups }
  | .ifCond c => some { s with groups := (s.active && c.eval s.env) :: s.groups }
  | .endif =>
    match s.groups with
    | [] => none
    | _ :: rest => some { s with groups := rest }
  | .define name d =>
    some (if s.active then { s with env := s.env.define name d } else s)
  | .text tokens =>
    some (if s.active then { s with out := s.out ++ tokens } else s)

/-- Processing of a whole file from a given macro environment: the resulting
environment and the tokens passed on. `none` when an `#endif` has no open
group or a group is still open at the end of the file. -/
def preprocess (file : List Line) (env : MacroEnv) : Option (MacroEnv × List Token) :=
  match file.foldlM step { env := env, groups := [], out := [] } with
  | some s => if s.groups.isEmpty then some (s.env, s.out) else none
  | none => none

/-! ## Preprocessor: macro replacement -/

/-- Whether a token is an identifier; only identifiers can name a macro. -/
def isIdentifier (t : Token) : Bool :=
  match t.data with
  | [] => false
  | c :: cs => (c.isAlpha || c == '_') && cs.all fun d => d.isAlphanum || d == '_'

/-- A token during macro replacement: its spelling and the names of the macros
whose replacement produced it, which are not replaced in it again. -/
structure PTok where
  spelling : Token
  hide : List Token
deriving DecidableEq, Repr

/-- A token of the source text: no macro has produced it. -/
def PTok.fresh (t : Token) : PTok := ⟨t, []⟩

/-- Marks every token of `ts` as produced by the macros `names`. -/
def hideIn (names : List Token) (ts : List PTok) : List PTok :=
  ts.map fun t => { t with hide := names ++ t.hide }

/-- Collects the arguments of an invocation, from the token after the opening
parenthesis on: arguments are separated by the commas outside inner
parentheses and the list ends at the matching closing parenthesis.  The result
is the arguments, the closing parenthesis and the tokens after it; `none` when
the invocation is not closed. -/
def parseArgs : Nat → List PTok → List (List PTok) → List PTok →
    Option (List (List PTok) × PTok × List PTok)
  | _, _, _, [] => none
  | depth, cur, done, t :: ts =>
    if t.spelling = ")" then
      if depth = 0 then some (done ++ [cur], t, ts)
      else parseArgs (depth - 1) (cur ++ [t]) done ts
    else if t.spelling = "(" then parseArgs (depth + 1) (cur ++ [t]) done ts
    else if t.spelling = "," ∧ depth = 0 then parseArgs 0 [] (done ++ [cur]) ts
    else parseArgs depth (cur ++ [t]) done ts

/-- Whether an invocation has as many arguments as the macro has parameters;
`F()` is an invocation without argument of a macro without parameter. -/
def arityOk (params : List Token) (args : List (List PTok)) : Bool :=
  match params, args with
  | [], [[]] => true
  | _, _ => params.length = args.length

/-- The argument bound to the parameter `t`, if `t` is a parameter. -/
def argFor : List Token → List (List PTok) → Token → Option (List PTok)
  | p :: ps, a :: as, t => if t = p then some a else argFor ps as t
  | _, _, _ => none

/-- Parameter substitution into a replacement list: a token that is a
parameter stands for its argument after `expandArg`, the complete macro
replacement of the argument on its own; any other token stands for itself.
Arguments of parameters that the replacement list does not use are not
looked at. -/
def substituteWith (expandArg : List PTok → Option (List PTok)) (params : List Token)
    (args : List (List PTok)) : List Token → Option (List PTok)
  | [] => some []
  | b :: bs =>
    match argFor params args b with
    | some a =>
      match expandArg a with
      | none => none
      | some part => (substituteWith expandArg params args bs).map (part ++ ·)
    | none => (substituteWith expandArg params args bs).map (PTok.fresh b :: ·)

/-- Macro replacement of a token sequence, with rescanning.  An identifier
that names an object-like macro is replaced by the replacement list; one that
names a function-like macro and is followed by `(` is replaced by the
replacement list in which every parameter stands for its argument, the
argument being completely macro-replaced first; the result is rescanned
together with the rest of the text, and a macro is not replaced again in
tokens its own replacement produced.  `none` for an invocation that is not
closed or has the wrong number of arguments, and when `fuel` steps do not
suffice.  The operators `#` and `##` are not modelled; the header has none. -/
def expandFuel (env : MacroEnv) : Nat → List PTok → Option (List PTok)
  | _, [] => some []
  | 0, _ :: _ => none
  | fuel + 1, t :: rest =>
    if !isIdentifier t.spelling || t.hide.contains t.spelling then
      (expandFuel env fuel rest).map (t :: ·)
    else
      match env t.spelling with
      | none => (expandFuel env fuel rest).map (t :: ·)
      | some (.object replacement) =>
        expandFuel env fuel
          (hideIn (t.spelling :: t.hide) (replacement.map PTok.fresh) ++ rest)
      | some (.function params replacement) =>
        match rest with
        | [] => some [t]
        | p :: rest1 =>
          if p.spelling = "(" then
            match parseArgs 0 [] [] rest1 with
            | none => none
            | some (args, close, rest2) =>
              if arityOk params args then
                match substituteWith (expandFuel env fuel) params args replacement with
                | none => none
                | some body =>
                  expandFuel env fuel
                    (hideIn (t.spelling :: t.hide.filter (close.hide.contains ·)) body ++ rest2)
              else none
          else (expandFuel env fuel rest).map (t :: ·)

/-- Macro replacement of a piece of source text, as spellings. -/
def expandText (env : MacroEnv) (fuel : Nat) (text : List Token) : Option (List Token) :=
  (expandFuel env fuel (text.map PTok.fresh)).map fun ts => ts.map PTok.spelling

/-- Whether a token sequence can stand as one argument of an invocation, read
from inside `depth` open parentheses: its parentheses are closed within it and
it has no comma outside them. -/
def isArgumentFrom : Nat → List Token → Bool
  | depth, [] => depth = 0
  | depth, t :: ts =>
    if t = ")" then depth ≠ 0 && isArgumentFrom (depth - 1) ts
    else if t = "(" then isArgumentFrom (depth + 1) ts
    else if t = "," ∧ depth = 0 then false
    else isArgumentFrom depth ts

/-- Whether a token sequence can stand as one argument of an invocation. -/
def isArgument (x : List Token) : Bool := isArgumentFrom 0 x

/-- A token that macro replacement passes on as it is: not an identifier, an
identifier that its own replacement produced, or one that names no macro. -/
def inert (env : MacroEnv) (t : PTok) : Prop :=
  isIdentifier t.spelling = false ∨ t.hide.contains t.spelling = true ∨ env t.spelling = none

/-! ## The header -/

/-- The controlling expression of the `#if` in both function bodies:
`!defined(SHADER_API_GLES3) && !defined(SHADER_API_GLCORE)`. -/
def depthFlipCond : Cond :=
  .and (.not (.defined "SHADER_API_GLES3")) (.not (.defined "SHADER_API_GLCORE"))

/-- The file `ShaderBase.h`, line by line (blank lines are empty text lines). -/
def ShaderBase_h : List Line :=
  [ .ifNotDefined "__SHADERBASE_H__",
    .define "__SHADERBASE_H__" (.object []),
    .text [],
    .ifDefined "SHADER_API_PSSL",
    .text [],
    .ifNotDefined "Texture2DMS",
    .define "Texture2DMS" (.object ["MS_Texture2D"]),
    .endif,
    .text [],
    .ifNotDefined "SampleCmpLevelZero",
    .define "SampleCmpLevelZero" (.object ["SampleCmpLOD0"]),
    .endif,
    .text [],
    .ifNotDefined "firstbithigh",
    .define "firstbithigh" (.object ["FirstSetBit_Hi"]),
    .endif,
    .text [],
    .endif,
    .text [],
    .text [],
    .define "__HLSL" (.object ["1"]),
    .define "public" (.object []),
    .text [],
    .text [],
    .define "unistruct" (.object ["cbuffer"]),
    .define "hbool" (.object ["bool"]),
    .text [],
    .define "_CB_REGSLOT" (.function ["x"] [":", "register", "(", "x", ")"]),
    .define "_QALIGN" (.function ["x"] [":", "packoffset", "(", "c0", ")", ";"]),
    .text [],
    .text [],
    .text ["float", "FetchDepth", "(", "Texture2D", "depthTexture", ",", "uint2", "pixCoord", ")"],
    .text ["\x7b"],
    .text ["float", "zdpth", "=", "depthTexture", ".", "Load", "(", "uint3", "(",
           "pixCoord", ".", "xy", ",", "0", ")", ")", ".", "x", ";"],
    .ifCond depthFlipCond,
    .text ["zdpth", "=", "1.0", "-", "zdpth", ";"],
    .endif,
    .text ["return", "zdpth", ";"],
    .text ["\x7d"],
    .text [],
    .text ["float", "FetchDepthMSAA", "(", "Texture2DMS", "<", "float", ">", "depthTexture", ",",
           "uint2", "pixCoord", ",", "uint", "sampleIdx", ")"],
    .text ["\x7b"],
    .text ["float", "zdpth", "=", "depthTexture", ".", "Load", "(", "uint3", "(",
           "pixCoord", ".", "xy", ",", "0", ")", ",", "sampleIdx", ")", ".", "x", ";"],
    .ifCond depthFlipCond,
    .text ["zdpth", "=", "1.0", "-", "zdpth", ";"],
    .endif,
    .text ["return", "zdpth", ";"],
    .text ["\x7d"],
    .text [],
    .endif ]

/-- Processing `ShaderBase.h` (one `#include` of it) from a macro environment. -/
def includeShaderBase (env : MacroEnv) : Option (MacroEnv × List Token) :=
  preprocess ShaderBase_h env

/-! ## HLSL values -/

/-- HLSL `float`, IEEE-754 binary32.  A finite value is `n * 2^-149` for an
integer `n`: the least positive binary32 value is `2^-149` and every finite
binary32 value, subnormal or normal, is an integer multiple of it.  The `n`
that occur are those of `float.isBinary32`.  The sign of zero and NaN payloads
are not tracked. -/
inductive float where
  | finite (n : Int)
  | inf (negative : Bool)
  | nan
deriving DecidableEq, Repr

namespace float

/-- Number of binary digits of `m`, by halving at most `fuel` times. -/
def bitLengthAux : Nat → Nat → Nat
  | 0, _ => 0
  | fuel + 1, m => if m = 0 then 0 else bitLengthAux fuel (m / 2) + 1

/-- Number of binary digits of `m` (`0` for `0`). -/
def bitLength (m : Nat) : Nat := bitLengthAux m m

/-- The largest finite binary32 value, `(2^24 - 1) * 2^104`, in units of
`2^-149`. -/
def maxFinite : Nat := (2 ^ 24 - 1) * 2 ^ 253

/-- The integer `n` (in units of `2^-149`) is a binary32 value: it needs at
most 24 significant digits and is not above the largest finite value. -/
def isBinary32 (n : Int) : Bool :=
  decide (n.natAbs % 2 ^ (bitLength n.natAbs - 24) = 0) && decide (n.natAbs ≤ maxFinite)

/-- Rounding of an exact result `n * 2^-149` to binary32: to the nearest value
with 24 significant digits, a tie to the one with an even significand, and to
an infinity when that is above the largest finite value.  Underflow is
gradual: subnormal results are kept, not flushed to zero. -/
def round (n : Int) : float :=
  let m := n.natAbs
  let bits := bitLength m
  if bits ≤ 24 then finite n
  else
    let sh := bits - 24
    let q := m / 2 ^ sh
    let r := m % 2 ^ sh
    let half := 2 ^ (sh - 1)
    let q1 := if half < r ∨ (r = half ∧ q % 2 = 1) then q + 1 else q
    let m1 := q1 * 2 ^ sh
    if maxFinite < m1 then inf (decide (n < 0))
    else finite (if n < 0 then -(m1 : Int) else (m1 : Int))

/-- The literal `1.0`. -/
def one : float := finite (Int.ofNat (2 ^ 149))

/-- Binary32 subtraction `a - b`. -/
def sub : float → float → float
  | nan, _ => nan
  | _, nan => nan
  | inf s, inf t => if s = t then nan else inf s
  | inf s, finite _ => inf s
  | finite _, inf t => inf (!t)
  | finite a, finite b => round (a - b)

instance : One float := ⟨one⟩

instance : Sub float := ⟨sub⟩

/-- Swizzle `.x` of a scalar: the scalar. -/
def x (v : float) : float := v

end float

/-- HLSL `uint2`. -/
structure uint2 where
  x : Nat
  y : Nat
deriving DecidableEq, Repr

/-- HLSL `uint3`. -/
structure uint3 where
  x : Nat
  y : Nat
  z : Nat
deriving DecidableEq, Repr

/-- Swizzle `.xy` of a `uint3`, which is also its truncation to a two-component
vector. -/
def uint3.xy (v : uint3) : uint2 := ⟨v.x, v.y⟩

/-- HLSL `float4`. -/
structure float4 where
  x : float
  y : float
  z : float
  w : float
deriving DecidableEq, Repr

/-- A `Texture2D` as the shader sees it: `Load(location)` gives the texel at
`location.xy` of mip level `location.z`.  What `Load` gives outside the texture
is the host API's business and part of the function. -/
structure Texture2D where
  Load : uint3 → float4

/-- A `Texture2DMS<float>` as the shader sees it: `Load(location, sampleIndex)`
gives one sample of the pixel at `location`. -/
structure Texture2DMS where
  Load : uint2 → Nat → float

/-! ## The two functions -/

/-- Source function `FetchDepth`, compiled under the macro environment `env`.
Of `env` the body looks at the two flags of its `#if` only: the identifiers of
the body are taken not to be macros themselves. -/
def FetchDepth (env : MacroEnv) (depthTexture : Texture2D) (pixCoord : uint2) : float :=
  let zdpth := (depthTexture.Load ⟨pixCoord.x, pixCoord.y, 0⟩).x
  let zdpth := if depthFlipCond.eval env then 1 - zdpth else zdpth
  zdpth

/-- Source function `FetchDepthMSAA`, compiled under the macro environment
`env`, of which the body again looks at the two flags only.  The
three-component location is truncated to the two components that
`Texture2DMS.Load` takes. -/
def FetchDepthMSAA (env : MacroEnv) (depthTexture : Texture2DMS) (pixCoord : uint2)
    (sampleIdx : Nat) : float :=
  let zdpth := (depthTexture.Load (uint3.xy ⟨pixCoord.x, pixCoord.y, 0⟩) sampleIdx).x
  let zdpth := if depthFlipCond.eval env then 1 - zdpth else zdpth
  zdpth

/-! ## Closed forms used in the proofs -/

/-- Effect of the idiom `#ifndef name` / `#define name d` / `#endif`. -/
def defineIfUndefined (env : MacroEnv) (name : Token) (d : MacroDef) : MacroEnv :=
  if defined env name then env else env.define name d

/-- Effect of lines 6 to 16, the body of the `SHADER_API_PSSL` block. -/
def psslDefines (env : MacroEnv) : MacroEnv :=
  defineIfUndefined
    (defineIfUndefined
      (defineIfUndefined env "Texture2DMS" (.object ["MS_Texture2D"]))
      "SampleCmpLevelZero" (.object ["SampleCmpLOD0"]))
    "firstbithigh" (.object ["FirstSetBit_Hi"])

/-- Effect of lines 21 to 29, the six unconditional `#define`s. -/
def commonDefines (env : MacroEnv) : MacroEnv :=
  (((((env.define "__HLSL" (.object ["1"])).define "public" (.object [])).define
    "unistruct" (.object ["cbuffer"])).define "hbool" (.object ["bool"])).define
    "_CB_REGSLOT" (.function ["x"] [":", "register", "(", "x", ")"])).define
    "_QALIGN" (.function ["x"] [":", "packoffset", "(", "c0", ")", ";"])

/-- Macro environment after a first inclusion of the header. -/
def headerEnv (env : MacroEnv) : MacroEnv :=
  let e := env.define "__SHADERBASE_H__" (.object [])
  commonDefines (if defined env "SHADER_API_PSSL" then psslDefines e else e)

/-- Tokens of lines 32 to 48, with or without the two flip statements. -/
def functionsText (flip : Bool) : List Token :=
  ["float", "FetchDepth", "(", "Texture2D", "depthTexture", ",", "uint2", "pixCoord", ")", "\x7b",
   "float", "zdpth", "=", "depthTexture", ".", "Load", "(", "uint3", "(",
   "pixCoord", ".", "xy", ",", "0", ")", ")", ".", "x", ";"] ++
  (if flip then ["zdpth", "=", "1.0", "-", "zdpth", ";"] else []) ++
  ["return", "zdpth", ";", "\x7d",
   "float", "FetchDepthMSAA", "(", "Texture2DMS", "<", "float", ">", "depthTexture", ",",
   "uint2", "pixCoord", ",", "uint", "sampleIdx", ")", "\x7b",
   "float", "zdpth", "=", "depthTexture", ".", "Load", "(", "uint3", "(",
   "pixCoord", ".", "xy", ",", "0", ")", ",", "sampleIdx", ")", ".", "x", ";"] ++
  (if flip then ["zdpth", "=", "1.0", "-", "zdpth", ";"] else []) ++
  ["return", "zdpth", ";", "\x7d"]

/-- Two inclusions of the header in a row: the second starts from the
environment the first one left, and the tokens of both are passed on. -/
def includeTwice (env : MacroEnv) : Option (MacroEnv × List Token) :=
  match includeShaderBase env with
  | none => none
  | some (env1, out1) =>
    match includeShaderBase env1 with
    | none => none
    | some (env2, out2) => some (env2, out1 ++ out2)

/-- A 2D texture with the same texel everywhere. -/
def Texture2D.const (v : float4) : Texture2D := ⟨fun _ => v⟩

/-- A multisampled texture with the same sample everywhere. -/
def Texture2DMS.const (v : float) : Texture2DMS := ⟨fun _ _ => v⟩

/-! ## Concrete inputs -/

/-- A target with `SHADER_API_PSSL` defined and nothing else. -/
def envPssl : MacroEnv := MacroEnv.empty.define "SHADER_API_PSSL" (.object [])

/-- A `SHADER_API_PSSL` target whose host has its own `Texture2DMS` macro. -/
def envPsslHostTexture2DMS : MacroEnv :=
  envPssl.define "Texture2DMS" (.object ["HostTexture2DMS"])

/-- A `SHADER_API_PSSL` target whose host defines `MS_Texture2D` as a macro. -/
def envPsslHostMSTexture2D : MacroEnv :=
  envPssl.define "MS_Texture2D" (.object ["HostMSTexture"])

/-- A `SHADER_API_PSSL` target in which the header has been included before. -/
def envPsslIncluded : MacroEnv := envPssl.define "__SHADERBASE_H__" (.object [])

/-- A target with `SHADER_API_GLCORE` defined and nothing else. -/
def envGLCore : MacroEnv := MacroEnv.empty.define "SHADER_API_GLCORE" (.object [])

/-- The depth `2^-30`, a binary32 value. -/
def depthTiny : float := float.finite (Int.ofNat (2 ^ 119))

/-- The depth `0.25`. -/
def depthQuarter : float := float.finite (Int.ofNat (2 ^ 147))

/-- The depth `0.75`. -/
def depthThreeQuarters : float := float.finite (Int.ofNat (3 * 2 ^ 147))

/-- A texture holding `0.25` in the first channel of texel `(3, 5)` of mip 0,
zeros in its other channels and NaN everywhere else. -/
def textureA : Texture2D :=
  ⟨fun loc =>
    if loc = ⟨3, 5, 0⟩ then ⟨depthQuarter, float.finite 0, float.finite 0, float.finite 0⟩
    else ⟨float.nan, float.nan, float.nan, float.nan⟩⟩

/-- A texture holding `0.25` in the first channel of every texel of every mip
level and infinity in the other channels. -/
def textureB : Texture2D :=
  Texture2D.const ⟨depthQuarter, float.inf false, float.inf false, float.inf true⟩

/-- A multisampled texture holding `0.25` in sample 2 of pixel `(3, 5)` and
NaN everywhere else. -/
def textureMSA : Texture2DMS :=
  ⟨fun loc s => if loc = ⟨3, 5⟩ ∧ s = 2 then depthQuarter else float.nan⟩

/-! ## Processing of the header, step by step -/

theorem defined_define (env : MacroEnv) (name t : Token) (d : MacroDef) :
    defined (env.define name d) t = (decide (t = name) || defined env t) := by
  unfold defined MacroEnv.define
  by_cases h : t = name <;> simp [h]

/-- The idiom `#ifndef name` / `#define name d` / `#endif` in an active group. -/
theorem run_guarded_define (env : MacroEnv) (out : List Token) (name : Token) (d : MacroDef)
    (rest : List Line) :
    List.foldlM step { env := env, groups := [true, true], out := out }
        (.ifNotDefined name :: .define name d :: .endif :: rest) =
      List.foldlM step { env := defineIfUndefined env name d, groups := [true, true], out := out }
        rest := by
  cases h : defined env name <;>
    simp [List.foldlM_cons, step, PPState.active, defineIfUndefined, h]

/-- A conditional text line `#if c` / text / `#endif` in an active group. -/
theorem run_if_text (env : MacroEnv) (out : List Token) (c : Cond) (tokens : List Token)
    (rest : List Line) :
    List.foldlM step { env := env, groups := [true], out := out }
        (.ifCond c :: .text tokens :: .endif :: rest) =
      List.foldlM step
        { env := env, groups := [true], out := out ++ (if c.eval env then tokens else []) }
        rest := by
  cases h : c.eval env <;>
    simp [List.foldlM_cons, step, PPState.active, h]

theorem run_ifDefined (env : MacroEnv) (gs : List Bool) (out : List Token) (name : Token)
    (rest : List Line) :
    List.foldlM step { env := env, groups := gs, out := out } (.ifDefined name :: rest) =
      List.foldlM step { env := env, groups := (gs.all id && defined env name) :: gs, out := out }
        rest := by
  simp [List.foldlM_cons, step, PPState.active]

theorem run_ifNotDefined (env : MacroEnv) (gs : List Bool) (out : List Token) (name : Token)
    (rest : List Line) :
    List.foldlM step { env := env, groups := gs, out := out } (.ifNotDefined name :: rest) =
      List.foldlM step { env := env, groups := (gs.all id && !defined env name) :: gs, out := out }
        rest := by
  simp [List.foldlM_cons, step, PPState.active]

theorem run_ifCond_skipped (env : MacroEnv) (gs : List Bool) (out : List Token) (c : Cond)
    (rest : List Line) :
    List.foldlM step { env := env, groups := false :: gs, out := out } (.ifCond c :: rest) =
      List.foldlM step { env := env, groups := false :: false :: gs, out := out } rest := by
  simp [List.foldlM_cons, step, PPState.active]

theorem run_endif (env : MacroEnv) (g : Bool) (gs : List Bool) (out : List Token)
    (rest : List Line) :
    List.foldlM step { env := env, groups := g :: gs, out := out } (.endif :: rest) =
      List.foldlM step { env := env, groups := gs, out := out } rest := by
  simp [List.foldlM_cons, step]

theorem run_define (env : MacroEnv) (gs : List Bool) (out : List Token) (name : Token)
    (d : MacroDef) (rest : List Line) :
    List.foldlM step { env := env, groups := gs, out := out } (.define name d :: rest) =
      List.foldlM step
        { env := if gs.all id then env.define name d else env, groups := gs, out := out }
        rest := by
  cases h : gs.all id <;> simp [List.foldlM_cons, step, PPState.active, h]

theorem run_text (env : MacroEnv) (gs : List Bool) (out : List Token) (tokens : List Token)
    (rest : List Line) :
    List.foldlM step { env := env, groups := gs, out := out } (.text tokens :: rest) =
      List.foldlM step
        { env := env, groups := gs, out := if gs.all id then out ++ tokens else out }
        rest := by
  cases h : gs.all id <;> simp [List.foldlM_cons, step, PPState.active, h]

theorem defined_defineIfUndefined (env : MacroEnv) (name t : Token) (d : MacroDef) :
    defined (defineIfUndefined env name d) t = (decide (t = name) || defined env t) := by
  unfold defineIfUndefined
  cases h : defined env name
  · simp [defined_define]
  · by_cases ht : t = name <;> simp [ht, h]

theorem depthFlipCond_eval (env : MacroEnv) :
    depthFlipCond.eval env =
      (!defined env "SHADER_API_GLES3" && !defined env "SHADER_API_GLCORE") := rfl

theorem depthFlipCond_eval_headerEnv (env : MacroEnv) :
    depthFlipCond.eval (headerEnv env) = depthFlipCond.eval env := by
  simp only [depthFlipCond_eval, headerEnv, commonDefines, psslDefines]
  split <;> simp [defined_define, defined_defineIfUndefined]

theorem includeShaderBase_eq (env : MacroEnv) :
    includeShaderBase env =
      some (if defined env "__SHADERBASE_H__" then (env, [])
            else (headerEnv env, functionsText (depthFlipCond.eval env))) := by
  unfold includeShaderBase preprocess ShaderBase_h
  rw [run_ifNotDefined]
  cases hg : defined env "__SHADERBASE_H__"
  · cases hp : defined env "SHADER_API_PSSL"
    · simp only [run_ifDefined, run_ifNotDefined, run_endif, run_define, run_text, run_if_text,
        defined_define, hp, String.reduceEq, decide_False, decide_True, Bool.or_false,
        Bool.false_or, Bool.not_false, Bool.and_true, Bool.and_false, Bool.true_and,
        Bool.false_and, List.all_cons, List.all_nil, id, Bool.false_eq_true, ↓reduceIte,
        List.append_nil, List.nil_append, List.foldlM_nil, List.isEmpty_nil]
      have h := depthFlipCond_eval_headerEnv env
      simp only [headerEnv, commonDefines, hp, Bool.false_eq_true, ↓reduceIte] at h
      simp [headerEnv, commonDefines, hp, functionsText, h]
    · simp only [run_ifDefined, run_guarded_define, run_endif, run_define, run_text, run_if_text,
        defined_define, hp, String.reduceEq, decide_False, decide_True, Bool.or_false,
        Bool.false_or, Bool.not_false, Bool.and_true, Bool.and_false, Bool.true_and,
        Bool.false_and, List.all_cons, List.all_nil, id, Bool.false_eq_true, ↓reduceIte,
        List.append_nil, List.nil_append, List.foldlM_nil, List.isEmpty_nil]
      have h := depthFlipCond_eval_headerEnv env
      simp only [headerEnv, commonDefines, psslDefines, hp, ↓reduceIte] at h
      simp [headerEnv, commonDefines, psslDefines, hp, functionsText, h]
  · simp only [run_ifDefined, run_ifNotDefined, run_endif, run_define, run_text, run_ifCond_skipped,
      Bool.not_true, Bool.and_true, Bool.and_false, Bool.true_and,
      Bool.false_and, List.all_cons, List.all_nil, id, Bool.false_eq_true, ↓reduceIte,
      List.append_nil, List.nil_append, List.foldlM_nil, List.isEmpty_nil]

theorem define_apply (env : MacroEnv) (name t : Token) (d : MacroDef) :
    (env.define name d) t = if t = name then some d else env t := rfl

theorem defineIfUndefined_apply (env : MacroEnv) (name t : Token) (d : MacroDef) :
    (defineIfUndefined env name d) t =
      if t = name ∧ defined env name = false then some d else env t := by
  unfold defineIfUndefined
  cases h : defined env name <;> simp [define_apply]

/-- The include guard is defined after a first inclusion. -/
theorem defined_headerEnv_guard (env : MacroEnv) :
    defined (headerEnv env) "__SHADERBASE_H__" = true := by
  simp only [headerEnv, commonDefines, psslDefines]
  split <;> simp [defined_define, defined_defineIfUndefined]

/-! ## Macro replacement: tokens that are passed on -/

theorem expandFuel_inert_cons (env : MacroEnv) (fuel : Nat) (t : PTok) (rest : List PTok)
    (h : inert env t) :
    expandFuel env (fuel + 1) (t :: rest) = (expandFuel env fuel rest).map (t :: ·) := by
  rw [expandFuel]
  rcases h with h | h | h
  · simp [h]
  · have hm : t.spelling ∈ t.hide := by simpa using h
    simp [hm]
  · simp only [h]
    split <;> rfl

theorem expandFuel_inert_append (env : MacroEnv) (ts : List PTok)
    (h : ∀ t ∈ ts, inert env t) : ∀ (fuel : Nat) (rest : List PTok), ts.length ≤ fuel →
    expandFuel env fuel (ts ++ rest) =
      (expandFuel env (fuel - ts.length) rest).map (ts ++ ·) := by
  induction ts with
  | nil => intro fuel rest _; simp
  | cons t ts ih =>
    intro fuel rest hlen
    cases fuel with
    | zero => simp at hlen
    | succ f =>
      have hin : inert env t := h t (List.mem_cons_self _ _)
      have hts : ∀ u ∈ ts, inert env u := fun u hu => h u (List.mem_cons_of_mem _ hu)
      have hl : ts.length ≤ f := by simpa using hlen
      rw [List.cons_append, expandFuel_inert_cons env f t _ hin, ih hts f rest hl]
      simp [Option.map_map, Function.comp_def]

theorem expandFuel_inert (env : MacroEnv) (ts : List PTok) (h : ∀ t ∈ ts, inert env t)
    (fuel : Nat) (hlen : ts.length ≤ fuel) : expandFuel env fuel ts = some ts := by
  have := expandFuel_inert_append env ts h fuel [] hlen
  simpa [expandFuel] using this

theorem expandFuel_nil (env : MacroEnv) (fuel : Nat) : expandFuel env fuel [] = some [] := by
  cases fuel <;> simp [expandFuel]

/-- A well-formed argument followed by a closing parenthesis is collected as
one argument. -/
theorem parseArgs_isArgument (x : List PTok) (close : PTok) (rest : List PTok)
    (hc : close.spelling = ")") :
    ∀ (depth : Nat) (cur : List PTok) (done : List (List PTok)),
      isArgumentFrom depth (x.map PTok.spelling) = true →
      parseArgs depth cur done (x ++ close :: rest) = some (done ++ [cur ++ x], close, rest) := by
  induction x with
  | nil =>
    intro depth cur done h
    simp [isArgumentFrom] at h
    simp [parseArgs, hc, h]
  | cons t ts ih =>
    intro depth cur done h
    simp only [List.map_cons, isArgumentFrom] at h
    simp only [List.cons_append, parseArgs, List.append_eq]
    by_cases h1 : t.spelling = ")"
    · simp only [h1, ↓reduceIte, Bool.and_eq_true, decide_eq_true_eq, ne_eq,
        decide_not, Bool.not_eq_true'] at h
      have hd : depth ≠ 0 := by
        intro h0
        simp [h0] at h
      simp only [h1, ↓reduceIte, hd]
      rw [ih _ _ _ h.2]
      simp
    · by_cases h2 : t.spelling = "("
      · simp only [h1, h2, ↓reduceIte] at h
        simp only [h1, h2, ↓reduceIte]
        rw [ih _ _ _ h]
        simp
      · by_cases h3 : t.spelling = "," ∧ depth = 0
        · simp [h1, h2, h3] at h
        · simp only [h1, h2, h3, ↓reduceIte] at h
          simp only [h1, h2, h3, ↓reduceIte]
          rw [ih _ _ _ h]
          simp

theorem map_spelling_fresh (x : List Token) : (x.map PTok.fresh).map PTok.spelling = x := by
  induction x with
  | nil => rfl
  | cons t ts ih => simp [PTok.fresh, List.map_map] at ih ⊢; exact ih

theorem map_spelling_hideIn (names : List Token) (ts : List PTok) :
    (hideIn names ts).map PTok.spelling = ts.map PTok.spelling := by
  simp [hideIn, List.map_map, Function.comp_def]

theorem inert_of_undefined (env : MacroEnv) (t : PTok) (h : env t.spelling = none) :
    inert env t := Or.inr (Or.inr h)

theorem inert_hideIn (env : MacroEnv) (names : List Token) (ts : List PTok)
    (h : ∀ t ∈ ts, inert env t) : ∀ t ∈ hideIn names ts, inert env t := by
  intro t ht
  simp only [hideIn, List.mem_map] at ht
  obtain ⟨u, hu, rfl⟩ := ht
  rcases h u hu with h1 | h1 | h1
  · exact Or.inl h1
  · refine Or.inr (Or.inl ?_)
    have hm : u.spelling ∈ u.hide := by simpa using h1
    simp [hm]
  · exact Or.inr (Or.inr h1)

/-- Replacement of `_CB_REGSLOT(x)` in general, in an environment where
`_CB_REGSLOT` is defined as in line 28 and `register` names no macro: when the
macro replacement of the argument on its own gives `x1` and no token of `x1`
is replaced on rescanning, the invocation expands to `: register(x1)`. -/
theorem expandText_CB_REGSLOT_replaced (env : MacroEnv)
    (hcb : env "_CB_REGSLOT" = some (.function ["x"] [":", "register", "(", "x", ")"]))
    (hreg : env "register" = none) (x : List Token) (hx : isArgument x = true)
    (f : Nat) (x1 : List PTok) (harg : expandFuel env f (x.map PTok.fresh) = some x1)
    (hin : ∀ t ∈ x1, inert env t) (hf : x1.length + 4 ≤ f) :
    expandText env (f + 1) (["_CB_REGSLOT", "("] ++ x ++ [")"]) =
      some ([":", "register", "("] ++ x1.map PTok.spelling ++ [")"]) := by
  have hid : isIdentifier "_CB_REGSLOT" = true := by decide
  have hparse := parseArgs_isArgument (x.map PTok.fresh) (PTok.fresh ")") [] rfl 0 [] []
    (by rw [map_spelling_fresh]; exact hx)
  have hbody : substituteWith (expandFuel env f) ["x"] [x.map PTok.fresh]
      [":", "register", "(", "x", ")"] =
      some (PTok.fresh ":" :: PTok.fresh "register" :: PTok.fresh "(" ::
        (x1 ++ [PTok.fresh ")"])) := by
    simp [substituteWith, argFor, harg]
  have hrest : ∀ t ∈ (PTok.fresh ":" :: PTok.fresh "register" :: PTok.fresh "(" ::
      (x1 ++ [PTok.fresh ")"])), inert env t := by
    intro t ht
    simp only [List.mem_cons, List.mem_append, List.not_mem_nil, or_false] at ht
    rcases ht with rfl | rfl | rfl | hu | rfl
    · exact Or.inl (by decide)
    · exact Or.inr (Or.inr hreg)
    · exact Or.inl (by decide)
    · exact hin t hu
    · exact Or.inl (by decide)
  have hscan := expandFuel_inert env _ (inert_hideIn env ["_CB_REGSLOT"] _ hrest) f
    (by simp [hideIn]; omega)
  unfold expandText
  simp only [List.cons_append, List.nil_append, List.map_cons, List.map_append, List.map_nil]
  rw [expandFuel]
  simp only [PTok.fresh, hid, hcb, List.contains_nil, Bool.not_true, Bool.or_self,
    Bool.false_eq_true, ↓reduceIte, List.filter_nil]
  simp only [PTok.fresh] at hparse hbody hscan
  simp only [List.nil_append] at hparse
  rw [hparse]
  simp only [arityOk, List.length_singleton, decide_True, ↓reduceIte, hbody, List.append_nil,
    hscan, Option.map_some']
  simp [hideIn, List.map_map, Function.comp_def]

/-- Replacement of `_CB_REGSLOT(x)` for an argument `x` without macro names, in
an environment where `_CB_REGSLOT` is defined as in line 28 and `register`
names no macro. -/
theorem expandText_CB_REGSLOT (env : MacroEnv)
    (hcb : env "_CB_REGSLOT" = some (.function ["x"] [":", "register", "(", "x", ")"]))
    (hreg : env "register" = none) (x : List Token) (hx : isArgument x = true)
    (hxm : ∀ t ∈ x, env t = none) (fuel : Nat) (hf : x.length + 5 ≤ fuel) :
    expandText env fuel (["_CB_REGSLOT", "("] ++ x ++ [")"]) =
      some ([":", "register", "("] ++ x ++ [")"]) := by
  obtain ⟨f, rfl⟩ : ∃ f, fuel = f + 1 := ⟨fuel - 1, by omega⟩
  have hxin : ∀ t ∈ x.map PTok.fresh, inert env t := by
    intro t ht
    simp only [List.mem_map] at ht
    obtain ⟨u, hu, rfl⟩ := ht
    exact inert_of_undefined env _ (hxm u hu)
  have harg : expandFuel env f (x.map PTok.fresh) = some (x.map PTok.fresh) :=
    expandFuel_inert env _ hxin f (by simp; omega)
  have h := expandText_CB_REGSLOT_replaced env hcb hreg x hx f _ harg hxin (by simp; omega)
  rw [map_spelling_fresh] at h
  exact h

/-- Replacement of `_QALIGN(a)` for any argument `a`, in an environment where
`_QALIGN` is defined as in line 29 and `packoffset` and `c0` name no macro. -/
theorem expandText_QALIGN (env : MacroEnv)
    (hq : env "_QALIGN" = some (.function ["x"] [":", "packoffset", "(", "c0", ")", ";"]))
    (hpack : env "packoffset" = none) (hc0 : env "c0" = none) (a : List Token)
    (ha : isArgument a = true) (fuel : Nat) (hf : 7 ≤ fuel) :
    expandText env fuel (["_QALIGN", "("] ++ a ++ [")"]) =
      some [":", "packoffset", "(", "c0", ")", ";"] := by
  obtain ⟨f, rfl⟩ : ∃ f, fuel = f + 1 := ⟨fuel - 1, by omega⟩
  have hid : isIdentifier "_QALIGN" = true := by decide
  have hparse := parseArgs_isArgument (a.map PTok.fresh) (PTok.fresh ")") [] rfl 0 [] []
    (by rw [map_spelling_fresh]; exact ha)
  have hbody : substituteWith (expandFuel env f) ["x"] [a.map PTok.fresh]
      [":", "packoffset", "(", "c0", ")", ";"] =
      some [PTok.fresh ":", PTok.fresh "packoffset", PTok.fresh "(", PTok.fresh "c0",
        PTok.fresh ")", PTok.fresh ";"] := by
    simp [substituteWith, argFor]
  have hrest : ∀ t ∈ [PTok.fresh ":", PTok.fresh "packoffset", PTok.fresh "(", PTok.fresh "c0",
      PTok.fresh ")", PTok.fresh ";"], inert env t := by
    intro t ht
    simp only [List.mem_cons, List.not_mem_nil, or_false] at ht
    rcases ht with rfl | rfl | rfl | rfl | rfl | rfl
    · exact Or.inl (by decide)
    · exact Or.inr (Or.inr hpack)
    · exact Or.inl (by decide)
    · exact Or.inr (Or.inr hc0)
    · exact Or.inl (by decide)
    · exact Or.inl (by decide)
  have hscan := expandFuel_inert env _ (inert_hideIn env ["_QALIGN"] _ hrest) f
    (by simp [hideIn]; omega)
  unfold expandText
  simp only [List.cons_append, List.nil_append, List.map_cons, List.map_append, List.map_nil]
  rw [expandFuel]
  simp only [PTok.fresh, hid, hq, List.contains_nil, Bool.not_true, Bool.or_self,
    Bool.false_eq_true, ↓reduceIte, List.filter_nil]
  simp only [PTok.fresh] at hparse hbody hscan
  simp only [List.nil_append] at hparse
  rw [hparse]
  simp only [arityOk, List.length_singleton, decide_True, ↓reduceIte, hbody, List.append_nil,
    hscan, Option.map_some']
  simp [hideIn]

/-- Replacement of an identifier that names an object-like macro whose
replacement list is one token that names no macro. -/
theorem expandText_alias (env : MacroEnv) (name target : Token)
    (hid : isIdentifier name = true) (hn : env name = some (.object [target]))
    (ht : env target = none) (fuel : Nat) (hf : 2 ≤ fuel) :
    expandText env fuel [name] = some [target] := by
  obtain ⟨f, rfl⟩ : ∃ f, fuel = f + 2 := ⟨fuel - 2, by omega⟩
  unfold expandText
  simp only [List.map_cons, List.map_nil]
  rw [expandFuel]
  simp only [PTok.fresh, hid, hn, List.contains_nil, Bool.not_true, Bool.or_self,
    Bool.false_eq_true, ↓reduceIte, hideIn, List.map_cons, List.map_nil, List.append_nil,
    List.nil_append]
  rw [expandFuel_inert_cons env f _ [] (Or.inr (Or.inr ht))]
  simp [expandFuel]

/-- Substitution does not depend on the fuel of the argument replacement once
that suffices. -/
theorem substituteWith_mono (e1 e2 : List PTok → Option (List PTok))
    (h : ∀ a r, e1 a = some r → e2 a = some r) (params : List Token)
    (args : List (List PTok)) :
    ∀ (body : List Token) (r : List PTok), substituteWith e1 params args body = some r →
      substituteWith e2 params args body = some r := by
  intro body
  induction body with
  | nil => intro r hr; simpa [substituteWith] using hr
  | cons b bs ih =>
    intro r hr
    simp only [substituteWith] at hr ⊢
    cases hb : argFor params args b with
    | none =>
      simp only [hb, Option.map_eq_some'] at hr ⊢
      obtain ⟨r1, hr1, rfl⟩ := hr
      exact ⟨r1, ih r1 hr1, rfl⟩
    | some a =>
      simp only [hb] at hr ⊢
      cases ha : e1 a with
      | none => simp [ha] at hr
      | some part =>
        simp only [ha, Option.map_eq_some'] at hr
        obtain ⟨r1, hr1, rfl⟩ := hr
        simp only [h a part ha, Option.map_eq_some']
        exact ⟨r1, ih r1 hr1, rfl⟩

/-- More fuel does not change the result of a macro replacement. -/
theorem expandFuel_mono (env : MacroEnv) : ∀ (f : Nat) (ts r : List PTok),
    expandFuel env f ts = some r → ∀ g, f ≤ g → expandFuel env g ts = some r := by
  intro f
  induction f with
  | zero =>
    intro ts r h g _
    cases ts with
    | nil => rw [expandFuel_nil] at h ⊢; exact h
    | cons t rest => simp [expandFuel] at h
  | succ f ih =>
    intro ts r h g hg
    cases ts with
    | nil => rw [expandFuel_nil] at h ⊢; exact h
    | cons t rest =>
      obtain ⟨g, rfl⟩ : ∃ k, g = k + 1 := ⟨g - 1, by omega⟩
      have hfg : f ≤ g := by omega
      have hmap : ∀ (u : PTok) (ts r : List PTok),
          (expandFuel env f ts).map (u :: ·) = some r →
          (expandFuel env g ts).map (u :: ·) = some r := by
        intro u ts r hr
        simp only [Option.map_eq_some'] at hr ⊢
        obtain ⟨r1, hr1, rfl⟩ := hr
        exact ⟨r1, ih ts r1 hr1 g hfg, rfl⟩
      rw [expandFuel] at h ⊢
      split at h
      · rename_i hc
        rw [if_pos hc]
        exact hmap _ _ _ h
      · rename_i hc
        rw [if_neg hc]
        cases he : env t.spelling with
        | none =>
          simp only [he] at h ⊢
          exact hmap _ _ _ h
        | some d =>
          cases d with
          | object replacement =>
            simp only [he] at h ⊢
            exact ih _ _ h g hfg
          | function params replacement =>
            simp only [he] at h ⊢
            cases rest with
            | nil => simpa using h
            | cons p rest1 =>
              simp only at h ⊢
              split at h
              · rename_i hp
                rw [if_pos hp]
                cases hpa : parseArgs 0 [] [] rest1 with
                | none => simp [hpa] at h
                | some res =>
                  obtain ⟨args, close, rest2⟩ := res
                  simp only [hpa] at h ⊢
                  split at h
                  · rename_i har
                    rw [if_pos har]
                    cases hs : substituteWith (expandFuel env f) params args replacement with
                    | none => simp [hs] at h
                    | some body =>
                      simp only [hs] at h
                      have hs2 := substituteWith_mono (expandFuel env f) (expandFuel env g)
                        (fun a r hr => ih a r hr g hfg) params args replacement body hs
                      simp only [hs2]
                      exact ih _ _ h g hfg
                  · simp at h
              · rename_i hp
                rw [if_neg hp]
                exact hmap _ _ _ h

theorem defined_eq_false (env : MacroEnv) (t : Token) : defined env t = false ↔ env t = none := by
  unfold defined
  cases env t <;> simp

/-- More fuel does not change the result of the macro replacement of a text. -/
theorem expandText_mono (env : MacroEnv) (f g : Nat) (text r : List Token)
    (h : expandText env f text = some r) (hfg : f ≤ g) : expandText env g text = some r := by
  unfold expandText at h ⊢
  simp only [Option.map_eq_some'] at h ⊢
  obtain ⟨r1, hr1, rfl⟩ := h
  exact ⟨r1, expandFuel_mono env f _ r1 hr1 g hfg, rfl⟩

/-! ## Binary32 subtraction -/

/-- Rounding leaves a binary32 value as it is. -/
theorem float.round_exact (n : Int) (h : float.isBinary32 n = true) :
    float.round n = float.finite n := by
  unfold float.isBinary32 at h
  simp only [Bool.and_eq_true, decide_eq_true_eq] at h
  obtain ⟨hmod, hmax⟩ := h
  unfold float.round
  by_cases hb : float.bitLength n.natAbs ≤ 24
  · simp [hb]
  · have hpos : 0 < 2 ^ (float.bitLength n.natAbs - 24 - 1) := Nat.two_pow_pos _
    have hdiv : n.natAbs / 2 ^ (float.bitLength n.natAbs - 24) *
        2 ^ (float.bitLength n.natAbs - 24) = n.natAbs :=
      Nat.div_mul_cancel (Nat.dvd_of_mod_eq_zero hmod)
    have hne : ¬ (0 = 2 ^ (float.bitLength n.natAbs - 24 - 1)) := by omega
    simp only [hb, hmod, ↓reduceIte, Nat.not_lt_zero, hne, false_and, or_self, hdiv,
      Nat.not_lt.mpr hmax]
    congr 1
    split <;> omega

/-- The value of `1.0 - (1.0 - z)` when `z` and `1 - z` are binary32 values. -/
theorem float.one_sub_one_sub (n : Int) (hn : float.isBinary32 n = true)
    (h1 : float.isBinary32 (Int.ofNat (2 ^ 149) - n) = true) :
    (1 : float) - ((1 : float) - float.finite n) = float.finite n := by
  show float.sub float.one (float.sub float.one (float.finite n)) = float.finite n
  have e : Int.ofNat (2 ^ 149) - (Int.ofNat (2 ^ 149) - n) = n := by omega
  simp only [float.sub, float.one, float.round_exact _ h1, e, float.round_exact _ hn]

/-- The number of binary digits of a number below `2^b` is at most `b`. -/
theorem float.bitLengthAux_le (fuel : Nat) : ∀ (m b : Nat), m < 2 ^ b →
    float.bitLengthAux fuel m ≤ b := by
  induction fuel with
  | zero => intro m b _; simp [float.bitLengthAux]
  | succ k ih =>
    intro m b hm
    unfold float.bitLengthAux
    by_cases h0 : m = 0
    · simp [h0]
    · simp only [h0, ↓reduceIte]
      cases b with
      | zero => simp at hm; omega
      | succ c =>
        have : m / 2 < 2 ^ c := by
          rw [Nat.pow_succ] at hm
          omega
        have := ih (m / 2) c this
        omega

/-- Every multiple `k * 2^-24` of `2^-24` between 0 and 1 is a binary32 value. -/
theorem float.isBinary32_fixed24 (k : Nat) (hk : k ≤ 2 ^ 24) :
    float.isBinary32 (Int.ofNat (k * 2 ^ 125)) = true := by
  unfold float.isBinary32
  simp only [Int.ofNat_eq_coe, Int.natAbs_ofNat, Bool.and_eq_true, decide_eq_true_eq]
  constructor
  · by_cases hlt : k < 2 ^ 24
    · have hb : float.bitLength (k * 2 ^ 125) ≤ 149 := by
        apply float.bitLengthAux_le
        calc k * 2 ^ 125 < 2 ^ 24 * 2 ^ 125 := Nat.mul_lt_mul_of_pos_right hlt (Nat.two_pow_pos _)
          _ = 2 ^ 149 := by rw [← Nat.pow_add]
      apply Nat.mod_eq_zero_of_dvd
      exact Dvd.dvd.mul_left (Nat.pow_dvd_pow 2 (by omega)) k
    · have hk2 : k = 2 ^ 24 := by omega
      subst hk2
      have e : 2 ^ 24 * 2 ^ 125 = 2 ^ 149 := by rw [← Nat.pow_add]
      rw [e]
      have hb : float.bitLength (2 ^ 149) ≤ 150 :=
        float.bitLengthAux_le _ _ _ (Nat.pow_lt_pow_right (by decide) (by decide))
      apply Nat.mod_eq_zero_of_dvd
      exact Nat.pow_dvd_pow 2 (by omega)
  · calc k * 2 ^ 125 ≤ 2 ^ 24 * 2 ^ 125 := Nat.mul_le_mul_right _ hk
      _ ≤ float.maxFinite := by unfold float.maxFinite; decide

/-- The round trip `1.0 - (1.0 - z)` is exact for every multiple `z = k * 2^-24`
of `2^-24` between 0 and 1. -/
theorem float.one_sub_one_sub_fixed24 (k : Nat) (hk : k ≤ 2 ^ 24) :
    (1 : float) - ((1 : float) - float.finite (Int.ofNat (k * 2 ^ 125))) =
      float.finite (Int.ofNat (k * 2 ^ 125)) := by
  apply float.one_sub_one_sub _ (float.isBinary32_fixed24 k hk)
  have e : Int.ofNat (2 ^ 149) - Int.ofNat (k * 2 ^ 125) = Int.ofNat ((2 ^ 24 - k) * 2 ^ 125) := by
    simp only [Int.ofNat_eq_coe]
    have h1 : (2 ^ 24 - k) * 2 ^ 125 + k * 2 ^ 125 = 2 ^ 149 := by
      rw [← Nat.add_mul, Nat.sub_add_cancel hk, ← Nat.pow_add]
    omega
  rw [e]
  exact float.isBinary32_fixed24 _ (Nat.sub_le _ _)

/-! ## The claims -/

/-- C1: for every 2D depth texture and pixel coordinate, `FetchDepth` returns the
first channel of the texel loaded at that coordinate, mip level 0, unmodified
when `SHADER_API_GLES3` or `SHADER_API_GLCORE` is defined, and `1 - loaded`
when neither is defined. -/
theorem FetchDepth_flip_rule (env : MacroEnv) (depthTexture : Texture2D) (pixCoord : uint2) :
    FetchDepth env depthTexture pixCoord =
      if defined env "SHADER_API_GLES3" = true ∨ defined env "SHADER_API_GLCORE" = true then
        (depthTexture.Load ⟨pixCoord.x, pixCoord.y, 0⟩).x
      else 1 - (depthTexture.Load ⟨pixCoord.x, pixCoord.y, 0⟩).x := by
  unfold FetchDepth
  rw [depthFlipCond_eval]
  cases defined env "SHADER_API_GLES3" <;> cases defined env "SHADER_API_GLCORE" <;> simp

/-- C2: for every multisampled depth texture, pixel coordinate and sample index,
`FetchDepthMSAA` returns the sample loaded at that coordinate and sample index
unmodified when `SHADER_API_GLES3` or `SHADER_API_GLCORE` is defined, and
`1 - loaded` when neither is defined. -/
theorem FetchDepthMSAA_flip_rule (env : MacroEnv) (depthTexture : Texture2DMS)
    (pixCoord : uint2) (sampleIdx : Nat) :
    FetchDepthMSAA env depthTexture pixCoord sampleIdx =
      if defined env "SHADER_API_GLES3" = true ∨ defined env "SHADER_API_GLCORE" = true then
        (depthTexture.Load pixCoord sampleIdx).x
      else 1 - (depthTexture.Load pixCoord sampleIdx).x := by
  unfold FetchDepthMSAA
  rw [depthFlipCond_eval]
  cases defined env "SHADER_API_GLES3" <;> cases defined env "SHADER_API_GLCORE" <;>
    simp [uint3.xy]

/-- C3, as stated, fails, in three environments with `SHADER_API_PSSL` defined.
Where the host has its own `Texture2DMS` macro, the macro survives the header
and `Texture2DMS` still expands to the host's text.  On a repeated inclusion
of the header `Texture2DMS` gets no definition and stays as it is.  Where the
host defines `MS_Texture2D` as a macro, `Texture2DMS` is defined as
`MS_Texture2D` and expands, by rescanning, to the host's text. -/
theorem pssl_substitution_not_unconditional :
    defined envPsslHostTexture2DMS "SHADER_API_PSSL" = true ∧
    (includeShaderBase envPsslHostTexture2DMS).map (fun r => r.1 "Texture2DMS") =
      some (some (.object ["HostTexture2DMS"])) ∧
    (includeShaderBase envPsslHostTexture2DMS).bind
      (fun r => expandText r.1 8 ["Texture2DMS"]) = some ["HostTexture2DMS"] ∧
    defined envPsslIncluded "SHADER_API_PSSL" = true ∧
    (includeShaderBase envPsslIncluded).map (fun r => r.1 "Texture2DMS") = some none ∧
    (includeShaderBase envPsslIncluded).bind
      (fun r => expandText r.1 8 ["Texture2DMS"]) = some ["Texture2DMS"] ∧
    defined envPsslHostMSTexture2D "SHADER_API_PSSL" = true ∧
    (includeShaderBase envPsslHostMSTexture2D).map (fun r => r.1 "Texture2DMS") =
      some (some (.object ["MS_Texture2D"])) ∧
    (includeShaderBase envPsslHostMSTexture2D).bind
      (fun r => expandText r.1 8 ["Texture2DMS"]) = some ["HostMSTexture"] := by
  decide

/-- C3, amended: when `SHADER_API_PSSL` is defined and the include guard
`__SHADERBASE_H__` is not, processing the header succeeds, and afterwards each
of `Texture2DMS`, `SampleCmpLevelZero`, `firstbithigh` that had no definition
is defined as the object-like macro with replacement list `MS_Texture2D`,
`SampleCmpLOD0`, `FirstSetBit_Hi`, and expands to that name when the name is
not itself defined as a macro; each of the three that had a definition keeps
it. -/
theorem pssl_substitutions (env : MacroEnv) (hp : defined env "SHADER_API_PSSL" = true)
    (hg : defined env "__SHADERBASE_H__" = false) :
    ∃ env1 out, includeShaderBase env = some (env1, out) ∧
      (defined env "Texture2DMS" = false →
        env1 "Texture2DMS" = some (.object ["MS_Texture2D"]) ∧
        (defined env "MS_Texture2D" = false → ∀ fuel, 2 ≤ fuel →
          expandText env1 fuel ["Texture2DMS"] = some ["MS_Texture2D"])) ∧
      (defined env "SampleCmpLevelZero" = false →
        env1 "SampleCmpLevelZero" = some (.object ["SampleCmpLOD0"]) ∧
        (defined env "SampleCmpLOD0" = false → ∀ fuel, 2 ≤ fuel →
          expandText env1 fuel ["SampleCmpLevelZero"] = some ["SampleCmpLOD0"])) ∧
      (defined env "firstbithigh" = false →
        env1 "firstbithigh" = some (.object ["FirstSetBit_Hi"]) ∧
        (defined env "FirstSetBit_Hi" = false → ∀ fuel, 2 ≤ fuel →
          expandText env1 fuel ["firstbithigh"] = some ["FirstSetBit_Hi"])) ∧
      (defined env "Texture2DMS" = true → env1 "Texture2DMS" = env "Texture2DMS") ∧
      (defined env "SampleCmpLevelZero" = true →
        env1 "SampleCmpLevelZero" = env "SampleCmpLevelZero") ∧
      (defined env "firstbithigh" = true → env1 "firstbithigh" = env "firstbithigh") := by
  have key : ∀ name target : Token, isIdentifier name = true →
      headerEnv env name = some (.object [target]) →
      headerEnv env target = env target → defined env target = false →
      ∀ fuel, 2 ≤ fuel → expandText (headerEnv env) fuel [name] = some [target] := by
    intro name target hid hn ht hd fuel hf
    exact expandText_alias (headerEnv env) name target hid hn
      (by rw [ht]; exact (defined_eq_false env target).1 hd) fuel hf
  refine ⟨headerEnv env, functionsText (depthFlipCond.eval env), ?_, ?_, ?_, ?_, ?_, ?_, ?_⟩
  · simp [includeShaderBase_eq, hg]
  · intro h
    have hb : headerEnv env "Texture2DMS" = some (.object ["MS_Texture2D"]) := by
      simp [headerEnv, commonDefines, psslDefines, hp, define_apply, defineIfUndefined_apply,
        defined_define, defined_defineIfUndefined, h]
    exact ⟨hb, key _ _ (by decide) hb (by
      simp [headerEnv, commonDefines, psslDefines, hp, define_apply, defineIfUndefined_apply])⟩
  · intro h
    have hb : headerEnv env "SampleCmpLevelZero" = some (.object ["SampleCmpLOD0"]) := by
      simp [headerEnv, commonDefines, psslDefines, hp, define_apply, defineIfUndefined_apply,
        defined_define, defined_defineIfUndefined, h]
    exact ⟨hb, key _ _ (by decide) hb (by
      simp [headerEnv, commonDefines, psslDefines, hp, define_apply, defineIfUndefined_apply])⟩
  · intro h
    have hb : headerEnv env "firstbithigh" = some (.object ["FirstSetBit_Hi"]) := by
      simp [headerEnv, commonDefines, psslDefines, hp, define_apply, defineIfUndefined_apply,
        defined_define, defined_defineIfUndefined, h]
    exact ⟨hb, key _ _ (by decide) hb (by
      simp [headerEnv, commonDefines, psslDefines, hp, define_apply, defineIfUndefined_apply])⟩
  · intro h
    simp [headerEnv, commonDefines, psslDefines, hp, define_apply, defineIfUndefined_apply,
      defined_define, defined_defineIfUndefined, h]
  · intro h
    simp [headerEnv, commonDefines, psslDefines, hp, define_apply, defineIfUndefined_apply,
      defined_define, defined_defineIfUndefined, h]
  · intro h
    simp [headerEnv, commonDefines, psslDefines, hp, define_apply, defineIfUndefined_apply,
      defined_define, defined_defineIfUndefined, h]

/-- Witness of `pssl_substitutions`: the target that defines only
`SHADER_API_PSSL`. -/
theorem pssl_substitutions_witness :
    defined envPssl "SHADER_API_PSSL" = true ∧ defined envPssl "__SHADERBASE_H__" = false ∧
    defined envPssl "Texture2DMS" = false ∧ defined envPssl "MS_Texture2D" = false ∧
    ∃ env1 out, includeShaderBase envPssl = some (env1, out) ∧
      (defined envPssl "Texture2DMS" = false →
        env1 "Texture2DMS" = some (.object ["MS_Texture2D"]) ∧
        (defined envPssl "MS_Texture2D" = false → ∀ fuel, 2 ≤ fuel →
          expandText env1 fuel ["Texture2DMS"] = some ["MS_Texture2D"])) ∧
      (defined envPssl "SampleCmpLevelZero" = false →
        env1 "SampleCmpLevelZero" = some (.object ["SampleCmpLOD0"]) ∧
        (defined envPssl "SampleCmpLOD0" = false → ∀ fuel, 2 ≤ fuel →
          expandText env1 fuel ["SampleCmpLevelZero"] = some ["SampleCmpLOD0"])) ∧
      (defined envPssl "firstbithigh" = false →
        env1 "firstbithigh" = some (.object ["FirstSetBit_Hi"]) ∧
        (defined envPssl "FirstSetBit_Hi" = false → ∀ fuel, 2 ≤ fuel →
          expandText env1 fuel ["firstbithigh"] = some ["FirstSetBit_Hi"])) ∧
      (defined envPssl "Texture2DMS" = true → env1 "Texture2DMS" = envPssl "Texture2DMS") ∧
      (defined envPssl "SampleCmpLevelZero" = true →
        env1 "SampleCmpLevelZero" = envPssl "SampleCmpLevelZero") ∧
      (defined envPssl "firstbithigh" = true →
        env1 "firstbithigh" = envPssl "firstbithigh") :=
  ⟨by decide, by decide, by decide, by decide,
    pssl_substitutions envPssl (by decide) (by decide)⟩

/-- C4: when `SHADER_API_PSSL` is not defined, processing the header succeeds
and leaves the definitions of `Texture2DMS`, `SampleCmpLevelZero` and
`firstbithigh` exactly as they were. -/
theorem no_pssl_no_substitution (env : MacroEnv)
    (hp : defined env "SHADER_API_PSSL" = false) :
    ∃ env1 out, includeShaderBase env = some (env1, out) ∧
      env1 "Texture2DMS" = env "Texture2DMS" ∧
      env1 "SampleCmpLevelZero" = env "SampleCmpLevelZero" ∧
      env1 "firstbithigh" = env "firstbithigh" := by
  rw [includeShaderBase_eq]
  cases hg : defined env "__SHADERBASE_H__"
  · exact ⟨_, _, rfl, by
      simp [headerEnv, commonDefines, hp, define_apply]⟩
  · exact ⟨_, _, rfl, rfl, rfl, rfl⟩

/-- Witness of `no_pssl_no_substitution`: the target that defines only
`SHADER_API_GLCORE`. -/
theorem no_pssl_no_substitution_witness :
    defined envGLCore "SHADER_API_PSSL" = false ∧
    ∃ env1 out, includeShaderBase envGLCore = some (env1, out) ∧
      env1 "Texture2DMS" = envGLCore "Texture2DMS" ∧
      env1 "SampleCmpLevelZero" = envGLCore "SampleCmpLevelZero" ∧
      env1 "firstbithigh" = envGLCore "firstbithigh" :=
  ⟨by decide, no_pssl_no_substitution envGLCore (by decide)⟩

/-- C6, as stated, fails: with neither flag defined, the binary32 depth
`2^-30` is fetched as `1.0` by both functions, because `1 - 2^-30` rounds to
`1.0`, and the inverse convention `1 - d` then gives `0`, not `2^-30`. -/
theorem depth_round_trip_loses_sample :
    defined MacroEnv.empty "SHADER_API_GLES3" = false ∧
    defined MacroEnv.empty "SHADER_API_GLCORE" = false ∧
    float.isBinary32 (Int.ofNat (2 ^ 119)) = true ∧
    FetchDepth MacroEnv.empty
      (Texture2D.const ⟨depthTiny, depthTiny, depthTiny, depthTiny⟩) ⟨3, 5⟩ = 1 ∧
    1 - FetchDepth MacroEnv.empty
      (Texture2D.const ⟨depthTiny, depthTiny, depthTiny, depthTiny⟩) ⟨3, 5⟩ = float.finite 0 ∧
    FetchDepthMSAA MacroEnv.empty (Texture2DMS.const depthTiny) ⟨3, 5⟩ 2 = 1 ∧
    1 - FetchDepthMSAA MacroEnv.empty (Texture2DMS.const depthTiny) ⟨3, 5⟩ 2 = float.finite 0 ∧
    depthTiny ≠ float.finite 0 := by
  set_option maxRecDepth 100000 in decide

/-- C6, amended: with neither `SHADER_API_GLES3` nor `SHADER_API_GLCORE`
defined, for every raw depth `z` that is a binary32 value and for which `1 - z`
is a binary32 value too (so that the flip is computed without rounding),
applying `d -> 1 - d` to the result of `FetchDepth`, and likewise of
`FetchDepthMSAA`, gives back `z`. -/
theorem depth_round_trip_exact (env : MacroEnv) (n : Int)
    (hes : defined env "SHADER_API_GLES3" = false)
    (hcore : defined env "SHADER_API_GLCORE" = false)
    (hn : float.isBinary32 n = true)
    (h1 : float.isBinary32 (Int.ofNat (2 ^ 149) - n) = true) :
    (∀ (depthTexture : Texture2D) (pixCoord : uint2),
      (depthTexture.Load ⟨pixCoord.x, pixCoord.y, 0⟩).x = float.finite n →
      1 - FetchDepth env depthTexture pixCoord = float.finite n) ∧
    (∀ (depthTexture : Texture2DMS) (pixCoord : uint2) (sampleIdx : Nat),
      (depthTexture.Load pixCoord sampleIdx).x = float.finite n →
      1 - FetchDepthMSAA env depthTexture pixCoord sampleIdx = float.finite n) := by
  constructor
  · intro depthTexture pixCoord hz
    simp only [FetchDepth, depthFlipCond_eval, hes, hcore, hz, Bool.not_false, Bool.and_self,
      ↓reduceIte]
    exact float.one_sub_one_sub n hn h1
  · intro depthTexture pixCoord sampleIdx hz
    simp only [FetchDepthMSAA, uint3.xy, depthFlipCond_eval, hes, hcore, hz, Bool.not_false,
      Bool.and_self, ↓reduceIte]
    exact float.one_sub_one_sub n hn h1

/-- Witness of `depth_round_trip_exact`: the depth `0.25`, whose flip `0.75`
is a binary32 value, in `textureA` and `textureMSA`. -/
theorem depth_round_trip_exact_witness :
    defined MacroEnv.empty "SHADER_API_GLES3" = false ∧
    defined MacroEnv.empty "SHADER_API_GLCORE" = false ∧
    float.isBinary32 (Int.ofNat (2 ^ 147)) = true ∧
    float.isBinary32 (Int.ofNat (2 ^ 149) - Int.ofNat (2 ^ 147)) = true ∧
    (textureA.Load ⟨3, 5, 0⟩).x = float.finite (Int.ofNat (2 ^ 147)) ∧
    (textureMSA.Load ⟨3, 5⟩ 2).x = float.finite (Int.ofNat (2 ^ 147)) ∧
    FetchDepth MacroEnv.empty textureA ⟨3, 5⟩ = depthThreeQuarters ∧
    1 - FetchDepth MacroEnv.empty textureA ⟨3, 5⟩ = float.finite (Int.ofNat (2 ^ 147)) ∧
    1 - FetchDepthMSAA MacroEnv.empty textureMSA ⟨3, 5⟩ 2 =
      float.finite (Int.ofNat (2 ^ 147)) :=
  have hn : float.isBinary32 (Int.ofNat (2 ^ 147)) = true := by
    set_option maxRecDepth 100000 in decide
  have h1 : float.isBinary32 (Int.ofNat (2 ^ 149) - Int.ofNat (2 ^ 147)) = true := by
    set_option maxRecDepth 100000 in decide
  have hA : (textureA.Load ⟨3, 5, 0⟩).x = float.finite (Int.ofNat (2 ^ 147)) := by decide
  have hM : (textureMSA.Load ⟨3, 5⟩ 2).x = float.finite (Int.ofNat (2 ^ 147)) := by decide
  ⟨by decide, by decide, hn, h1, hA, hM, by set_option maxRecDepth 100000 in decide,
    (depth_round_trip_exact MacroEnv.empty (Int.ofNat (2 ^ 147)) (by decide) (by decide)
      hn h1).1 textureA ⟨3, 5⟩ hA,
    (depth_round_trip_exact MacroEnv.empty (Int.ofNat (2 ^ 147)) (by decide) (by decide)
      hn h1).2 textureMSA ⟨3, 5⟩ 2 hM⟩

/-- C7: under the same macro environment, for every pixel coordinate `p` and
sample index `s`, if sample `s` at `p` of the multisampled texture has the same
first channel as the mip-0 texel at `p` of the 2D texture, then
`FetchDepthMSAA` of the one equals `FetchDepth` of the other. -/
theorem FetchDepthMSAA_eq_FetchDepth (env : MacroEnv) (msTexture : Texture2DMS)
    (texture : Texture2D) (p : uint2) (s : Nat)
    (h : (msTexture.Load p s).x = (texture.Load ⟨p.x, p.y, 0⟩).x) :
    FetchDepthMSAA env msTexture p s = FetchDepth env texture p := by
  simp only [FetchDepthMSAA, FetchDepth, uint3.xy, h]

/-- Witness of `FetchDepthMSAA_eq_FetchDepth`: `textureMSA` and `textureA` at
pixel `(3, 5)`, sample 2, with the depth flipped. -/
theorem FetchDepthMSAA_eq_FetchDepth_witness :
    (textureMSA.Load ⟨3, 5⟩ 2).x = (textureA.Load ⟨3, 5, 0⟩).x ∧
    FetchDepthMSAA MacroEnv.empty textureMSA ⟨3, 5⟩ 2 = FetchDepth MacroEnv.empty textureA ⟨3, 5⟩ :=
  ⟨by decide, FetchDepthMSAA_eq_FetchDepth MacroEnv.empty textureMSA textureA ⟨3, 5⟩ 2
    (by decide)⟩

/-- C8: for a fixed macro environment and pixel coordinate `p`, `FetchDepth`
gives the same value for any two 2D textures whose mip-0 texels at `p` have the
same first channel, whatever the textures hold elsewhere; and `FetchDepthMSAA`
gives the same value for any two multisampled textures whose sample `sampleIdx`
at `p` is the same. -/
theorem FetchDepth_depends_on_addressed_texel (env : MacroEnv) (p : uint2) :
    (∀ t1 t2 : Texture2D, (t1.Load ⟨p.x, p.y, 0⟩).x = (t2.Load ⟨p.x, p.y, 0⟩).x →
      FetchDepth env t1 p = FetchDepth env t2 p) ∧
    (∀ (m1 m2 : Texture2DMS) (sampleIdx : Nat),
      (m1.Load p sampleIdx).x = (m2.Load p sampleIdx).x →
      FetchDepthMSAA env m1 p sampleIdx = FetchDepthMSAA env m2 p sampleIdx) := by
  constructor
  · intro t1 t2 h
    simp only [FetchDepth, h]
  · intro m1 m2 sampleIdx h
    simp only [FetchDepthMSAA, uint3.xy, h]

/-- Witness of `FetchDepth_depends_on_addressed_texel`: `textureA` and
`textureB` agree in the first channel of texel `(3, 5)` of mip 0 and differ in
its other channels, in the other texels and in the other mip levels. -/
theorem FetchDepth_depends_on_addressed_texel_witness :
    (textureA.Load ⟨3, 5, 0⟩).x = (textureB.Load ⟨3, 5, 0⟩).x ∧
    (textureA.Load ⟨3, 5, 0⟩).y ≠ (textureB.Load ⟨3, 5, 0⟩).y ∧
    (textureA.Load ⟨4, 5, 0⟩).x ≠ (textureB.Load ⟨4, 5, 0⟩).x ∧
    (textureA.Load ⟨3, 5, 1⟩).x ≠ (textureB.Load ⟨3, 5, 1⟩).x ∧
    FetchDepth envGLCore textureA ⟨3, 5⟩ = FetchDepth envGLCore textureB ⟨3, 5⟩ ∧
    (textureMSA.Load ⟨3, 5⟩ 2).x = ((Texture2DMS.const depthQuarter).Load ⟨3, 5⟩ 2).x ∧
    FetchDepthMSAA envGLCore textureMSA ⟨3, 5⟩ 2 =
      FetchDepthMSAA envGLCore (Texture2DMS.const depthQuarter) ⟨3, 5⟩ 2 :=
  ⟨by decide, by decide, by decide, by decide,
    (FetchDepth_depends_on_addressed_texel envGLCore ⟨3, 5⟩).1 textureA textureB (by decide),
    by decide,
    (FetchDepth_depends_on_addressed_texel envGLCore ⟨3, 5⟩).2 textureMSA
      (Texture2DMS.const depthQuarter) 2 (by decide)⟩

/-- C9: for every macro environment, processing the header succeeds and leaves
`__SHADERBASE_H__` defined; processing it again from the environment it left
emits no token and leaves that environment as it is; so two inclusions in a
row give the same macro environment and the same tokens as one.  These tokens
are the text of lines 32 to 48 when the guard was not defined before, with
exactly one definition of `FetchDepth` and one of `FetchDepthMSAA`, and none
at all when it was. -/
theorem include_guard_idempotent (env : MacroEnv) :
    ∃ env1 out1, includeShaderBase env = some (env1, out1) ∧
      defined env1 "__SHADERBASE_H__" = true ∧
      includeShaderBase env1 = some (env1, []) ∧
      includeTwice env = some (env1, out1) ∧
      out1 = (if defined env "__SHADERBASE_H__" then []
        else functionsText (depthFlipCond.eval env)) ∧
      out1.count "FetchDepth" = (if defined env "__SHADERBASE_H__" then 0 else 1) ∧
      out1.count "FetchDepthMSAA" = (if defined env "__SHADERBASE_H__" then 0 else 1) := by
  have key : ∀ e : MacroEnv, defined e "__SHADERBASE_H__" = true →
      includeShaderBase e = some (e, []) := by
    intro e he
    simp [includeShaderBase_eq, he]
  cases hg : defined env "__SHADERBASE_H__"
  · have h1 : includeShaderBase env =
        some (headerEnv env, functionsText (depthFlipCond.eval env)) := by
      simp [includeShaderBase_eq, hg]
    have hd := defined_headerEnv_guard env
    have h2 := key (headerEnv env) hd
    refine ⟨_, _, h1, hd, h2, ?_, ?_, ?_, ?_⟩
    · simp [includeTwice, h1, h2]
    · simp
    · cases depthFlipCond.eval env <;> decide
    · cases depthFlipCond.eval env <;> decide
  · have h1 := key env hg
    exact ⟨_, _, h1, hg, h1, by simp [includeTwice, h1], by simp, by decide, by decide⟩

/-- Witness of `include_guard_idempotent`: a first inclusion on the target with
no macro defined, where the guard was not defined and the tokens hold one
definition of each function. -/
theorem include_guard_idempotent_witness :
    defined MacroEnv.empty "__SHADERBASE_H__" = false ∧
    ∃ env1 out1, includeShaderBase MacroEnv.empty = some (env1, out1) ∧
      defined env1 "__SHADERBASE_H__" = true ∧
      includeShaderBase env1 = some (env1, []) ∧
      includeTwice MacroEnv.empty = some (env1, out1) ∧
      out1 = (if defined MacroEnv.empty "__SHADERBASE_H__" then []
        else functionsText (depthFlipCond.eval MacroEnv.empty)) ∧
      out1.count "FetchDepth" = (if defined MacroEnv.empty "__SHADERBASE_H__" then 0 else 1) ∧
      out1.count "FetchDepthMSAA" =
        (if defined MacroEnv.empty "__SHADERBASE_H__" then 0 else 1) :=
  ⟨by decide, include_guard_idempotent MacroEnv.empty⟩

/-- C10, as stated, fails: the argument of `_CB_REGSLOT` is not carried
through as written when it names a macro.  After a first inclusion of the
header on the target with no macro defined, `_CB_REGSLOT(hbool)` expands to
`: register(bool)`, not to `: register(hbool)`, because `hbool` is a macro of
the header itself and an argument is macro-replaced before it is substituted. -/
theorem CB_REGSLOT_argument_is_replaced :
    defined MacroEnv.empty "__SHADERBASE_H__" = false ∧
    isArgument ["hbool"] = true ∧
    (includeShaderBase MacroEnv.empty).bind
      (fun r => expandText r.1 16 ["_CB_REGSLOT", "(", "hbool", ")"]) =
      some [":", "register", "(", "bool", ")"] ∧
    [":", "register", "(", "bool", ")"] ≠ [":", "register", "(", "hbool", ")"] := by
  decide

/-- C10, amended: after a first inclusion of the header, in an environment
where `register`, `packoffset` and `c0` name no macro, for every argument `x`
none of whose tokens names a macro the invocation `_CB_REGSLOT(x)` expands to
`: register(x)` with the tokens of `x` in it, whereas for every argument `a`,
whatever its tokens name, `_QALIGN(a)` expands to the fixed text
`: packoffset(c0);`, so that two invocations `_QALIGN(a)` and `_QALIGN(b)`
have the same expansion. -/
theorem function_like_macros (env : MacroEnv) (hg : defined env "__SHADERBASE_H__" = false)
    (hreg : defined env "register" = false) (hpack : defined env "packoffset" = false)
    (hc0 : defined env "c0" = false) :
    ∃ env1 out, includeShaderBase env = some (env1, out) ∧
      (∀ x : List Token, isArgument x = true → (∀ t ∈ x, defined env1 t = false) →
        ∀ fuel, x.length + 5 ≤ fuel →
        expandText env1 fuel (["_CB_REGSLOT", "("] ++ x ++ [")"]) =
          some ([":", "register", "("] ++ x ++ [")"])) ∧
      (∀ a : List Token, isArgument a = true → ∀ fuel, 7 ≤ fuel →
        expandText env1 fuel (["_QALIGN", "("] ++ a ++ [")"]) =
          some [":", "packoffset", "(", "c0", ")", ";"]) ∧
      (∀ a b : List Token, isArgument a = true → isArgument b = true → ∀ fuel, 7 ≤ fuel →
        expandText env1 fuel (["_QALIGN", "("] ++ a ++ [")"]) =
          expandText env1 fuel (["_QALIGN", "("] ++ b ++ [")"])) := by
  have hcb : headerEnv env "_CB_REGSLOT" =
      some (.function ["x"] [":", "register", "(", "x", ")"]) := by
    simp [headerEnv, commonDefines, define_apply]
  have hq : headerEnv env "_QALIGN" =
      some (.function ["x"] [":", "packoffset", "(", "c0", ")", ";"]) := by
    simp [headerEnv, commonDefines, define_apply]
  have hundef : ∀ t : Token, t ∉ ["__SHADERBASE_H__", "Texture2DMS", "SampleCmpLevelZero",
      "firstbithigh", "__HLSL", "public", "unistruct", "hbool", "_CB_REGSLOT", "_QALIGN"] →
      defined env t = false → headerEnv env t = none := by
    intro t ht hd
    simp only [List.mem_cons, List.not_mem_nil, or_false, not_or] at ht
    have he := (defined_eq_false env t).1 hd
    simp only [headerEnv, commonDefines, psslDefines]
    split <;> simp [define_apply, defineIfUndefined_apply, ht, he]
  have hreg1 := hundef "register" (by decide) hreg
  have hpack1 := hundef "packoffset" (by decide) hpack
  have hc01 := hundef "c0" (by decide) hc0
  refine ⟨headerEnv env, functionsText (depthFlipCond.eval env), ?_, ?_, ?_, ?_⟩
  · simp [includeShaderBase_eq, hg]
  · intro x hx hxm fuel hf
    exact expandText_CB_REGSLOT (headerEnv env) hcb hreg1 x hx
      (fun t ht => (defined_eq_false _ t).1 (hxm t ht)) fuel hf
  · intro a ha fuel hf
    exact expandText_QALIGN (headerEnv env) hq hpack1 hc01 a ha fuel hf
  · intro a b ha hb fuel hf
    rw [expandText_QALIGN (headerEnv env) hq hpack1 hc01 a ha fuel hf,
      expandText_QALIGN (headerEnv env) hq hpack1 hc01 b hb fuel hf]

/-- Witness of `function_like_macros`: `_CB_REGSLOT(b0)`, `_QALIGN(4)` and
`_QALIGN(hbool)` after a first inclusion on the target with no macro defined. -/
theorem function_like_macros_witness :
    defined MacroEnv.empty "__SHADERBASE_H__" = false ∧
    defined MacroEnv.empty "register" = false ∧
    defined MacroEnv.empty "packoffset" = false ∧
    defined MacroEnv.empty "c0" = false ∧
    isArgument ["b0"] = true ∧ isArgument ["4"] = true ∧ isArgument ["hbool"] = true ∧
    ∃ env1 out, includeShaderBase MacroEnv.empty = some (env1, out) ∧
      (∀ t ∈ ["b0"], defined env1 t = false) ∧
      expandText env1 6 ["_CB_REGSLOT", "(", "b0", ")"] = some [":", "register", "(", "b0", ")"] ∧
      expandText env1 7 ["_QALIGN", "(", "4", ")"] =
        some [":", "packoffset", "(", "c0", ")", ";"] ∧
      expandText env1 7 ["_QALIGN", "(", "4", ")"] =
        expandText env1 7 ["_QALIGN", "(", "hbool", ")"] := by
  refine ⟨by decide, by decide, by decide, by decide, by decide, by decide, by decide, ?_⟩
  obtain ⟨env1, out, h, h1, h2, h3⟩ :=
    function_like_macros MacroEnv.empty (by decide) (by decide) (by decide) (by decide)
  have hb0 : ∀ t ∈ ["b0"], defined env1 t = false := by
    have h0 := includeShaderBase_eq MacroEnv.empty
    rw [h] at h0
    have he : env1 = headerEnv MacroEnv.empty := by
      simpa using congrArg (fun r => r.map Prod.fst) h0
    intro t ht
    simp only [List.mem_singleton] at ht
    subst ht
    rw [he]
    decide
  exact ⟨env1, out, h, hb0, h1 ["b0"] (by decide) hb0 6 (by decide),
    h2 ["4"] (by decide) 7 (by decide),
    h3 ["4"] ["hbool"] (by decide) (by decide) 7 (by decide)⟩

end ShaderBase
